/-
Verification of a flashcard-generation plugin (src/main.ts).

The development shallowly embeds the string processing of the generation
pipeline, the deck resolution against the AnkiConnect automation API, and
the single-method automation client.  Text is modelled as List Char so the
JavaScript string primitives used by the source (match, replace, split,
trim, destructuring) become executable Lean functions, and remote calls are
modelled by an environment of responses plus a trace of emitted calls.
-/
import Mathlib

/-- Character strings, modelled as lists of characters. -/
abbrev Str := List Char

/-- The whitespace class of the JavaScript regex escape for whitespace and
of the trim method, restricted to ASCII. -/
def isWS (c : Char) : Bool :=
  decide (c = ' ' ∨ c = '\t' ∨ c = '\n' ∨ c = '\r' ∨ c = '\x0b' ∨ c = '\x0c')

/-- Line terminators: the characters the regex dot refuses and the
end-of-line anchor accepts, restricted to ASCII. -/
def isTerm (c : Char) : Bool :=
  decide (c = '\n' ∨ c = '\r')

/-- Boolean test that the first list is an initial segment of the second. -/
def sw : Str → Str → Bool
  | [], _ => true
  | _ :: _, [] => false
  | p :: ps, c :: cs => decide (p = c) && sw ps cs

/-- Index of the leftmost occurrence of pat in s, as JavaScript string
search finds it. -/
def findSepIdx (pat : Str) : Str → Option Nat
  | [] => if sw pat [] then some 0 else none
  | c :: t => if sw pat (c :: t) then some 0 else (findSepIdx pat t).map (· + 1)

/-- Fuel-driven worker for splitting on a separator. -/
def splitGo (pat : Str) : Nat → Str → List Str
  | 0, s => [s]
  | fuel+1, s =>
    match findSepIdx pat s with
    | none => [s]
    | some i => s.take i :: splitGo pat fuel (s.drop (i + pat.length))

/-- JavaScript String.split with a nonempty literal separator: repeatedly
cut at the leftmost occurrence. -/
def splitOnSep (pat s : Str) : List Str := splitGo pat (s.length + 1) s

/-- JavaScript String.trim restricted to ASCII whitespace. -/
def trimStr (s : Str) : Str := ((s.dropWhile isWS).reverse.dropWhile isWS).reverse

/-- JavaScript String.replace with a literal pattern and empty replacement:
delete the leftmost occurrence, if any. -/
def replaceFirst (pat s : Str) : Str :=
  match findSepIdx pat s with
  | none => s
  | some i => s.take i ++ s.drop (i + pat.length)

/-- Whether pat occurs somewhere in s. -/
def hasOcc (pat s : Str) : Bool := (findSepIdx pat s).isSome

/-- Whether a string ends with the pipe character. -/
def endsPipe : Str → Bool
  | [] => false
  | [c] => decide (c = '|')
  | _ :: c :: t => endsPipe (c :: t)

/-- The literal of the deck directive. -/
def deckLit : Str := "Deck:".data

/-- The multiline start-of-line anchor: position 0 or a position directly
after a line terminator. -/
def lineStart (s : Str) : Nat → Bool
  | 0 => true
  | j+1 =>
    match s.drop j with
    | [] => false
    | c :: _ => isTerm c

/-- The lazy group followed by the end-of-line anchor, started at position
p: it matches exactly the nonempty run of non-terminator characters from p
to the end of the line. -/
def capAt (s : Str) (p : Nat) : Option Str :=
  match (s.drop p).takeWhile (fun c => !isTerm c) with
  | [] => none
  | c :: cs => some (c :: cs)

/-- Greedy backtracking of the whitespace star: try the capture after k
whitespace characters, for k from the given bound down to zero. -/
def tryWs (s : Str) (q : Nat) : Nat → Option (Nat × Str)
  | 0 => (capAt s q).map (fun cap => (q, cap))
  | k+1 =>
    match capAt s (q+k+1) with
    | some cap => some (q+k+1, cap)
    | none => tryWs s q k

/-- A match of the deck-directive regex: overall start, start of the
captured group, the captured group, and the end of the overall match. -/
structure DMatch where
  pre : Nat
  capStart : Nat
  cap : Str
  stop : Nat
deriving DecidableEq, Repr

/-- Attempt of the deck-directive regex at start position i. -/
def matchAt (s : Str) (i : Nat) : Option DMatch :=
  if lineStart s i && sw deckLit (s.drop i) then
    match tryWs s (i+5) (((s.drop (i+5)).takeWhile isWS).length) with
    | some pc => some ⟨i, pc.1, pc.2, pc.1 + pc.2.length⟩
    | none => none
  else none

/-- First match of the multiline deck-directive regex, scanning start
positions left to right as the JavaScript engine does. -/
def deckFind (s : Str) : Option DMatch := (List.range s.length).findSome? (matchAt s)

/-- The plugin settings record, as in the source interface. -/
structure FlashcardGeneratorSettings where
  modelName : Str
  prompt : Str
  apiKey : Str
  deckName : Str
deriving DecidableEq, Repr

/-- The hardcoded default prompt template of the source. -/
def defaultPromptText : Str := "You are an AnkiAssistant that will create flashcards to be used in the Anki App. You should use HTML to format parts of the output according to Anki format. Provide code examples and anything that assists in recall. Separate the \x27Front\x27 and \x27Back\x27 of each flashcard with ||. Only use it once in the flashcard. Every flashcard should be separated by \x27=======\x27".data

/-- The DEFAULT_SETTINGS constant of the source. -/
def DEFAULT_SETTINGS : FlashcardGeneratorSettings :=
  { apiKey := "".data
    deckName := "Generated Flashcards".data
    modelName := "gpt-4".data
    prompt := defaultPromptText }

/-- Stored settings on disk: any subset of the fields may be present. -/
structure StoredSettings where
  modelName : Option Str
  prompt : Option Str
  apiKey : Option Str
  deckName : Option Str
deriving DecidableEq, Repr

/-- loadSettings: merge the stored data over the defaults field by field,
as Object.assign does; a field that is present is kept even when empty. -/
def loadSettings : Option StoredSettings → FlashcardGeneratorSettings
  | none => DEFAULT_SETTINGS
  | some d =>
    { apiKey := d.apiKey.getD DEFAULT_SETTINGS.apiKey
      deckName := d.deckName.getD DEFAULT_SETTINGS.deckName
      modelName := d.modelName.getD DEFAULT_SETTINGS.modelName
      prompt := d.prompt.getD DEFAULT_SETTINGS.prompt }

/-- One chat message of the model request. -/
structure ChatMessage where
  role : String
  content : Str
deriving DecidableEq, Repr

/-- The model request assembled by the pipeline. -/
structure ChatRequest where
  messages : List ChatMessage
  model : Str
  temperature : Rat
  presencePenalty : Rat
deriving DecidableEq, Repr

/-- The fixed system persona message content. -/
def systemPersona : Str := "You are an AnkiAssistant that will create flashcards to be used in the Anki App.".data

/-- The literal leading the final user message. -/
def userTextLead : Str := "Create flashcards from the following text:".data

/-- The chat completion request of the source, for given settings and
cleaned document text. -/
def mkChatRequest (st : FlashcardGeneratorSettings) (cleaned : Str) : ChatRequest :=
  { messages := [⟨"system", systemPersona⟩, ⟨"user", st.prompt⟩, ⟨"user", userTextLead ++ cleaned⟩]
    model := st.modelName
    temperature := 1/5
    presencePenalty := -1/5 }

/-- Deck-name extraction and text cleaning of the source: the first regex
match, if any, names the deck and is deleted from the text; the result is
trimmed either way. -/
def deckResolve (st : FlashcardGeneratorSettings) (text : Str) : Str × Str :=
  match deckFind text with
  | some m => (m.cap, trimStr (text.take m.pre ++ text.drop m.stop))
  | none => (st.deckName, trimStr text)

/-- A front and back pair. -/
structure Card where
  front : Str
  back : Str
deriving DecidableEq, Repr

/-- The payload of an addNote automation call. -/
structure NoteParams where
  deckName : Str
  modelName : Str
  front : Str
  back : Str
  allowDuplicate : Bool
  tags : List Str
deriving DecidableEq, Repr

/-- Automation calls emitted by one run, in order. -/
inductive ACall where
  | names : ACall
  | create (deck : Str) : ACall
  | add (note : NoteParams) : ACall
deriving DecidableEq, Repr

/-- Responses of the automation backend for one run: the i-th deck listing,
the deck creation result, and the i-th note addition result. -/
structure AnkiEnv where
  namesResp : Nat → Except String (List (Str × Int))
  createResp : Except String Unit
  addResp : Nat → Except String Int

/-- The JSON body posted by the automation client. -/
structure AnkiRequestBody (π : Type) where
  action : String
  params : Option π
  version : Nat

/-- The HTTP request issued by the automation client. -/
structure AnkiHttpRequest (π : Type) where
  url : String
  method : String
  body : AnkiRequestBody π

/-- A parsed JSON response: the error field may be absent, null, or a
message; the result field is always read. -/
structure AnkiRawResponse (ρ : Type) where
  errorField : Option (Option String)
  result : ρ

/-- invokeAnkiConnect of the source: build the fixed POST request, and
unwrap the response, raising exactly when a non-null error field is
present. -/
def invokeAnkiConnect {π ρ : Type} (action : String) (params : Option π)
    (resp : AnkiRawResponse ρ) : AnkiHttpRequest π × Except String ρ :=
  (⟨"http://localhost:8765", "POST", ⟨action, params, 6⟩⟩,
   match resp.errorField with
   | some (some m) => Except.error m
   | _ => Except.ok resp.result)

/-- getDeckId of the source: scan the listed decks for the first exact name
match; any raised error is caught and, like a missing deck, yields null. -/
def getDeckId (r : Except String (List (Str × Int))) (name : Str) : Option Int :=
  match r with
  | Except.error _ => none
  | Except.ok decks =>
    match decks.find? (fun d => decide (d.1 = name)) with
    | some d => some d.2
    | none => none

/-- createDeck of the source: emit the creation call; a raised error is
caught and surfaced as a fixed notice. -/
def createDeck (r : Except String Unit) (name : Str) : ACall × Option String :=
  (ACall.create name,
   match r with
   | Except.error _ => some "An error occurred while creating the deck"
   | Except.ok _ => none)

/-- The note payload built by addCardToDeck. -/
def mkNote (deck : Str) (c : Card) : NoteParams :=
  { deckName := deck
    modelName := "Basic".data
    front := c.front
    back := c.back
    allowDuplicate := false
    tags := ["generated".data] }

/-- addCardToDeck of the source: emit the addNote call; a raised error is
caught and surfaced as a notice carrying the error message. -/
def addCardToDeck (r : Except String Int) (c : Card) (deck : Str) : ACall × Option String :=
  (ACall.add (mkNote deck c),
   match r with
   | Except.error e => some e
   | Except.ok _ => none)

/-- The literal separating front from back. -/
def sepPipes : Str := "||".data

/-- The literal separating flashcards in the model response. -/
def sepEquals : Str := "=======".data

/-- The literal stripped from the front half. -/
def frontLit : Str := "Front:".data

/-- The literal stripped from the back half. -/
def backLit : Str := "Back:".data

/-- Parsing of one response segment: split once structure on the pipes
separator; with at least two pieces the first two give the card, otherwise
the destructured back half is undefined and the member access raises,
which none models. -/
def parseSegment (seg : Str) : Option Card :=
  match splitOnSep sepPipes seg with
  | f :: b :: _ => some ⟨trimStr (replaceFirst frontLit f), trimStr (replaceFirst backLit b)⟩
  | _ => none

/-- JavaScript truthiness of the nullable numeric deck id. -/
def jsTruthy : Option Int → Bool
  | none => false
  | some i => decide (i ≠ 0)

/-- Deck resolution phase of the run: look the deck up; on a falsy id,
create the deck and look it up again. -/
def deckPhase (env : AnkiEnv) (name : Str) : List ACall × List String × Option Int :=
  let id1 := getDeckId (env.namesResp 0) name
  if jsTruthy id1 then ([ACall.names], [], id1)
  else
    let c := createDeck env.createResp name
    ([ACall.names, c.1, ACall.names], c.2.toList, getDeckId (env.namesResp 1) name)

/-- The submission loop of the run: process the segments in order, skipping
those of zero length; a segment that fails to parse raises, so the loop
stops there and the run aborts; a failing note addition is caught inside
addCardToDeck and the loop continues. -/
def cardLoop (env : AnkiEnv) (deck : Str) : List Str → Nat → List ACall × List String × Bool
  | [], _ => ([], [], false)
  | seg :: rest, i =>
    if 0 < seg.length then
      match parseSegment seg with
      | some c =>
        let a := addCardToDeck (env.addResp i) c deck
        let r := cardLoop env deck rest (i+1)
        (a.1 :: r.1, a.2.toList ++ r.2.1, r.2.2)
      | none => ([], [], true)
    else cardLoop env deck rest i

/-- The segments of a model response: trim the whole response once, then
split on the separator literal. -/
def segsOf (resp : Str) : List Str := splitOnSep sepEquals (trimStr resp)

/-- Observable outcome of one run: the model request, the ordered
automation calls, the notices raised from caught errors, and whether the
run was aborted by the outer handler. -/
structure RunOut where
  request : ChatRequest
  calls : List ACall
  logs : List String
  aborted : Bool
deriving DecidableEq, Repr

/-- The generation command of the source, given the environment, settings,
document text, and the model response text: none when the document text is
empty. -/
def generateFlashcardsFromCurrentFile (env : AnkiEnv) (st : FlashcardGeneratorSettings)
    (text modelResp : Str) : Option RunOut :=
  if text.isEmpty then none
  else
    let dc := deckResolve st text
    let dp := deckPhase env dc.1
    let cl := cardLoop env dc.1 (segsOf modelResp) 0
    some { request := mkChatRequest st dc.2
           calls := dp.1 ++ cl.1
           logs := dp.2.1 ++ cl.2.1
           aborted := cl.2.2 }

/-- The addNote payloads of a call trace, in order. -/
def addsOf (cs : List ACall) : List NoteParams :=
  cs.filterMap fun c => match c with
    | ACall.add p => some p
    | _ => none

/-- Whether a call is a note addition. -/
def isAdd : ACall → Bool
  | ACall.add _ => true
  | _ => false

/-- A segment the loop chokes on: nonempty but unparsable. -/
def badSeg (s : Str) : Bool := decide (0 < s.length) && (parseSegment s).isNone

/-- The lines of a document, split on the newline character. -/
def linesOf (s : Str) : List Str := splitOnSep ['\n'] s

/-- Whether a single line contains a match of the deck-directive pattern:
the deck literal followed, after optional whitespace, by at least one more
character of the line. -/
def lineMatchesDeck (l : Str) : Bool :=
  (List.range l.length).any fun i => sw deckLit (l.drop i) && decide (i + 5 < l.length)

/-- A backend where every call succeeds and no deck exists yet. -/
def okEnv : AnkiEnv := ⟨fun _ => Except.ok [], Except.ok (), fun _ => Except.ok 0⟩

/-- A backend where every note addition is rejected. -/
def badAddEnv : AnkiEnv := ⟨fun _ => Except.ok [], Except.ok (), fun _ => Except.error "dup"⟩

/-- A backend listing one deck whose numeric id is zero. -/
def zeroIdEnv : AnkiEnv :=
  ⟨fun _ => Except.ok [("X".data, 0)], Except.ok (), fun _ => Except.ok 0⟩

/-- A backend where every call fails. -/
def failEnv : AnkiEnv :=
  ⟨fun _ => Except.error "down", Except.error "down", fun _ => Except.error "down"⟩

/-- A true startsWith test decomposes the larger string. -/
theorem sw_eq_append : ∀ (p s : Str), sw p s = true → s = p ++ s.drop p.length := by
  intro p
  induction p with
  | nil => intro s _; simp
  | cons x ps ih =>
    intro s h
    cases s with
    | nil => simp [sw] at h
    | cons c cs =>
      simp only [sw, Bool.and_eq_true, decide_eq_true_eq] at h
      obtain ⟨rfl, h2⟩ := h
      simp only [List.cons_append, List.length_cons, List.drop_succ_cons]
      exact congrArg _ (ih cs h2)

/-- A true startsWith test bounds the length. -/
theorem sw_len (p s : Str) (h : sw p s = true) : p.length ≤ s.length := by
  have := congrArg List.length (sw_eq_append p s h)
  simp only [List.length_append] at this
  omega

/-- startsWith holds on an appended extension. -/
theorem sw_self : ∀ (p t : Str), sw p (p ++ t) = true := by
  intro p t
  induction p with
  | nil => rfl
  | cons x ps ih => simp [sw, ih]

/-- A found separator occurrence fits inside the string. -/
theorem fsi_bound {pat : Str} : ∀ {s : Str} {i : Nat},
    findSepIdx pat s = some i → i + pat.length ≤ s.length := by
  intro s
  induction s with
  | nil =>
    intro i h
    simp only [findSepIdx] at h
    split at h
    · cases h
      have := sw_len pat [] (by assumption)
      simpa using this
    · cases h
  | cons c t ih =>
    intro i h
    simp only [findSepIdx] at h
    split at h
    · cases h
      simpa using sw_len pat (c :: t) (by assumption)
    · rw [Option.map_eq_some'] at h
      obtain ⟨j, hj, rfl⟩ := h
      have := ih hj
      simp only [List.length_cons]
      omega

/-- Fuel does not matter once it exceeds the string length. -/
theorem splitGo_congr {pat : Str} (hpat : pat ≠ []) :
    ∀ (f₁ f₂ : Nat) (s : Str), s.length < f₁ → s.length < f₂ →
    splitGo pat f₁ s = splitGo pat f₂ s := by
  intro f₁
  induction f₁ with
  | zero => intro f₂ s h₁ _; omega
  | succ f ih =>
    intro f₂ s h₁ h₂
    cases f₂ with
    | zero => omega
    | succ g =>
      cases hf : findSepIdx pat s with
      | none => simp only [splitGo, hf]
      | some i =>
        have hb := fsi_bound hf
        have hp1 : 1 ≤ pat.length := by
          cases pat with
          | nil => exact absurd rfl hpat
          | cons _ _ => simp
        have hlt : (s.drop (i + pat.length)).length < f := by
          rw [List.length_drop]; omega
        have hlt2 : (s.drop (i + pat.length)).length < g := by
          rw [List.length_drop]; omega
        simp only [splitGo, hf]
        exact congrArg _ (ih g _ hlt hlt2)

/-- Splitting a string with no separator occurrence gives it back whole. -/
theorem splitOnSep_none {pat s : Str} (h : findSepIdx pat s = none) :
    splitOnSep pat s = [s] := by
  simp only [splitOnSep, splitGo, h]

/-- Splitting cuts at the leftmost separator occurrence and recurses. -/
theorem splitOnSep_some {pat s : Str} {i : Nat} (hpat : pat ≠ [])
    (h : findSepIdx pat s = some i) :
    splitOnSep pat s = s.take i :: splitOnSep pat (s.drop (i + pat.length)) := by
  have hb := fsi_bound h
  have hp1 : 1 ≤ pat.length := by
    cases pat with
    | nil => exact absurd rfl hpat
    | cons _ _ => simp
  show splitGo pat (s.length + 1) s = s.take i :: splitOnSep pat (s.drop (i + pat.length))
  simp only [splitGo, h]
  congr 1
  show splitGo pat s.length (s.drop (i + pat.length)) = splitGo pat ((s.drop (i + pat.length)).length + 1) (s.drop (i + pat.length))
  apply splitGo_congr hpat
  · rw [List.length_drop]; omega
  · omega

/-- The pipes separator is not empty. -/
theorem sepPipes_ne : sepPipes ≠ [] := by decide

/-- The flashcard separator is not empty. -/
theorem sepEquals_ne : sepEquals ≠ [] := by decide

/-- Leftmost pipes occurrence in a string built around an explicit pipes
separator, when the piece before it has no occurrence and does not end in
a pipe. -/
theorem fsi_append_pipes : ∀ (a t : Str),
    findSepIdx sepPipes a = none → endsPipe a = false →
    findSepIdx sepPipes (a ++ sepPipes ++ t) = some a.length := by
  intro a
  induction a with
  | nil =>
    intro t _ _
    show findSepIdx sepPipes ('|' :: '|' :: t) = some 0
    simp [findSepIdx, sepPipes, sw]
  | cons x a' ih =>
    intro t h1 h2
    have h1' : sw sepPipes (x :: a') = false ∧ findSepIdx sepPipes a' = none := by
      simp only [findSepIdx] at h1
      split at h1
      · cases h1
      · refine ⟨by simpa using ‹¬ sw sepPipes (x :: a') = true›, ?_⟩
        simpa using h1
    have hsw : sw sepPipes (x :: (a' ++ sepPipes ++ t)) = false := by
      by_cases hx : x = '|'
      · subst hx
        cases a' with
        | nil => simp [endsPipe] at h2
        | cons y a'' =>
          by_cases hy : y = '|'
          · subst hy
            exfalso
            have : sw sepPipes ('|' :: '|' :: a'') = true := by
              simp [sepPipes, sw]
            rw [this] at h1'
            exact absurd h1'.1 (by simp)
          · simp [sepPipes, sw, Ne.symm hy]
      · simp [sepPipes, sw, Ne.symm hx]
    have h2' : endsPipe a' = false := by
      cases a' with
      | nil => rfl
      | cons y a'' => simpa [endsPipe] using h2
    have hrec := ih t h1'.2 h2'
    show findSepIdx sepPipes ((x :: a') ++ sepPipes ++ t) = some (x :: a').length
    rw [List.cons_append, List.cons_append]
    simp only [findSepIdx, hsw, hrec]
    simp

/-- Splitting a string built around an explicit pipes separator peels off
the piece before it. -/
theorem split_pipes_cons (a t : Str) (h1 : findSepIdx sepPipes a = none)
    (h2 : endsPipe a = false) :
    splitOnSep sepPipes (a ++ sepPipes ++ t) = a :: splitOnSep sepPipes t := by
  rw [splitOnSep_some sepPipes_ne (fsi_append_pipes a t h1 h2)]
  have hlen : sepPipes.length = 2 := rfl
  have htake : (a ++ sepPipes ++ t).take a.length = a := by
    rw [List.append_assoc, List.take_left]
  have hdrop : (a ++ sepPipes ++ t).drop (a.length + sepPipes.length) = t := by
    have : a.length + sepPipes.length = (a ++ sepPipes).length := by
      simp [List.length_append]
    rw [this, List.drop_left]
  rw [htake, hdrop]

/-- An all-whitespace string has no pipes occurrence. -/
theorem fsi_pipes_none_of_ws : ∀ (s : Str), (∀ c ∈ s, isWS c = true) →
    findSepIdx sepPipes s = none := by
  intro s
  induction s with
  | nil => intro _; rfl
  | cons c t ih =>
    intro h
    have hc : isWS c = true := h c (by simp)
    have hcp : c ≠ '|' := by
      intro hcp
      subst hcp
      simp [isWS] at hc
    have hsw : sw sepPipes (c :: t) = false := by
      simp [sepPipes, sw, Ne.symm hcp]
    simp only [findSepIdx, hsw]
    simp only [Bool.false_eq_true, if_false, Option.map_eq_none']
    exact ih (fun x hx => h x (by simp [hx]))

/-- Every member of a takeWhile result satisfies the predicate. -/
theorem tw_mem {f : Char → Bool} : ∀ {l : List Char} {x : Char},
    x ∈ l.takeWhile f → f x = true := by
  intro l
  induction l with
  | nil => intro x h; simp [List.takeWhile] at h
  | cons c t ih =>
    intro x h
    rw [List.takeWhile_cons] at h
    by_cases hc : f c = true
    · rw [if_pos hc] at h
      rcases List.mem_cons.1 h with rfl | h2
      · exact hc
      · exact ih h2
    · rw [if_neg hc] at h
      simp at h

/-- The head of a dropWhile result fails the predicate. -/
theorem dw_head {f : Char → Bool} : ∀ {l : List Char} {x : Char},
    (l.dropWhile f).head? = some x → f x = false := by
  intro l
  induction l with
  | nil => intro x h; simp [List.dropWhile] at h
  | cons c t ih =>
    intro x h
    rw [List.dropWhile_cons] at h
    by_cases hc : f c = true
    · rw [if_pos hc] at h
      exact ih h
    · rw [if_neg hc] at h
      simp only [List.head?_cons, Option.some.injEq] at h
      subst h
      simpa using hc

/-- dropWhile is drop by the takeWhile length. -/
theorem dw_eq_drop {f : Char → Bool} : ∀ (l : List Char),
    l.dropWhile f = l.drop (l.takeWhile f).length := by
  intro l
  induction l with
  | nil => rfl
  | cons c t ih =>
    rw [List.dropWhile_cons, List.takeWhile_cons]
    by_cases hc : f c = true
    · rw [if_pos hc, if_pos hc]
      simpa using ih
    · rw [if_neg hc, if_neg hc]
      rfl

/-- Characters taken within the takeWhile length satisfy the predicate. -/
theorem take_of_le_takeWhile {f : Char → Bool} : ∀ (l : List Char) (j : Nat),
    j ≤ (l.takeWhile f).length → ∀ c ∈ l.take j, f c = true := by
  intro l
  induction l with
  | nil => intro j _ c hc; simp at hc
  | cons x t ih =>
    intro j hj c hc
    by_cases hx : f x = true
    · rw [List.takeWhile_cons, if_pos hx] at hj
      cases j with
      | zero => simp at hc
      | succ j' =>
        rw [List.take_succ_cons] at hc
        rcases List.mem_cons.1 hc with rfl | h2
        · exact hx
        · exact ih j' (by simpa using hj) c h2
    · rw [List.takeWhile_cons, if_neg hx] at hj
      simp only [List.length_nil, Nat.le_zero] at hj
      subst hj
      simp at hc

/-- Taking one more element appends the head of the remaining drop. -/
theorem take_succ_of_head : ∀ (l : Str) (j : Nat) (x : Char),
    (l.drop j).head? = some x → l.take (j+1) = l.take j ++ [x] := by
  intro l
  induction l with
  | nil => intro j x h; simp at h
  | cons c t ih =>
    intro j x h
    cases j with
    | zero =>
      simp only [List.drop_zero, List.head?_cons, Option.some.injEq] at h
      subst h
      rfl
    | succ k =>
      rw [List.drop_succ_cons] at h
      have := ih k x h
      simp only [List.take_succ_cons, this, List.cons_append]

/-- A successful findSome? comes from some member. -/
theorem findSome_mem {α β : Type} {f : α → Option β} : ∀ {l : List α} {b : β},
    l.findSome? f = some b → ∃ a, a ∈ l ∧ f a = some b := by
  intro l
  induction l with
  | nil => intro b h; simp [List.findSome?] at h
  | cons a t ih =>
    intro b h
    rw [List.findSome?_cons] at h
    cases hfa : f a with
    | some c =>
      rw [hfa] at h
      have h' : c = b := by simpa using h
      exact ⟨a, by simp, by rw [hfa, h']⟩
    | none =>
      rw [hfa] at h
      obtain ⟨a', ha', hfa'⟩ := ih h
      exact ⟨a', by simp [ha'], hfa'⟩

/-- A successful capture is the nonempty non-terminator run at its start. -/
theorem capAt_spec {s : Str} {p : Nat} {cap : Str} (h : capAt s p = some cap) :
    cap ≠ [] ∧ cap = (s.drop p).takeWhile (fun c => !isTerm c) := by
  unfold capAt at h
  cases hw : (s.drop p).takeWhile (fun c => !isTerm c) with
  | nil =>
    rw [hw] at h
    cases h
  | cons c cs =>
    rw [hw] at h
    have := Option.some.inj h
    exact ⟨this ▸ (by simp), this ▸ rfl⟩

/-- A successful capture is nonempty, free of terminators, sits at its
start position, and is followed by the string end or a terminator. -/
theorem capAt_decomp {s : Str} {p : Nat} {cap : Str} (h : capAt s p = some cap) :
    cap ≠ [] ∧ (∀ c ∈ cap, isTerm c = false) ∧
    s.drop p = cap ++ s.drop (p + cap.length) ∧
    (s.drop (p + cap.length) = [] ∨
      ∃ ch t, isTerm ch = true ∧ s.drop (p + cap.length) = ch :: t) := by
  obtain ⟨hne, hcap⟩ := capAt_spec h
  have hdw : (s.drop p).dropWhile (fun c => !isTerm c) = s.drop (p + cap.length) := by
    rw [dw_eq_drop, ← hcap, List.drop_drop]
  refine ⟨hne, ?_, ?_, ?_⟩
  · intro c hc
    have := tw_mem (hcap ▸ hc)
    simpa using this
  · rw [← hdw, hcap]
    exact (List.takeWhile_append_dropWhile _ _).symm
  · cases hdrop : s.drop (p + cap.length) with
    | nil => exact Or.inl rfl
    | cons ch t =>
      refine Or.inr ⟨ch, t, ?_, rfl⟩
      have hh : ((s.drop p).dropWhile (fun c => !isTerm c)).head? = some ch := by
        rw [hdw, hdrop]; rfl
      have := dw_head hh
      simpa using this

/-- A successful backtracking step stays within its bounds and forwards a
capture. -/
theorem tryWs_spec {s : Str} {q : Nat} : ∀ (k : Nat) {p : Nat} {cap : Str},
    tryWs s q k = some (p, cap) → q ≤ p ∧ p ≤ q + k ∧ capAt s p = some cap := by
  intro k
  induction k with
  | zero =>
    intro p cap h
    simp only [tryWs, Option.map_eq_some'] at h
    obtain ⟨a, ha, heq⟩ := h
    obtain ⟨rfl, rfl⟩ := Prod.mk.inj heq
    exact ⟨Nat.le_refl q, by omega, ha⟩
  | succ k ih =>
    intro p cap h
    simp only [tryWs] at h
    cases hc : capAt s (q+k+1) with
    | some c =>
      rw [hc] at h
      obtain ⟨rfl, rfl⟩ := Prod.mk.inj (Option.some.inj h)
      exact ⟨by omega, by omega, hc⟩
    | none =>
      rw [hc] at h
      obtain ⟨h1, h2, h3⟩ := ih h
      exact ⟨h1, by omega, h3⟩

/-- Inversion of a successful match attempt at a position. -/
theorem matchAt_spec {s : Str} {i : Nat} {m : DMatch} (h : matchAt s i = some m) :
    m.pre = i ∧ lineStart s i = true ∧ sw deckLit (s.drop i) = true ∧
    i + 5 ≤ m.capStart ∧
    m.capStart ≤ i + 5 + ((s.drop (i+5)).takeWhile isWS).length ∧
    capAt s m.capStart = some m.cap ∧ m.stop = m.capStart + m.cap.length := by
  unfold matchAt at h
  cases hg : (lineStart s i && sw deckLit (s.drop i)) with
  | false =>
    rw [hg] at h
    cases h
  | true =>
    rw [hg] at h
    simp only [if_true] at h
    obtain ⟨hls, hsw⟩ := Bool.and_eq_true_iff.1 hg
    cases ht : tryWs s (i+5) (((s.drop (i+5)).takeWhile isWS).length) with
    | none => rw [ht] at h; cases h
    | some pc =>
      rw [ht] at h
      obtain ⟨p, cap⟩ := pc
      obtain ⟨hq1, hq2, hcap⟩ := tryWs_spec _ ht
      cases (Option.some.inj h)
      exact ⟨rfl, hls, hsw, hq1, hq2, hcap, rfl⟩

/-- Structural characterisation of a successful first regex match: the
string decomposes into a prefix ending at a line start, the deck literal,
a run of whitespace that may include line breaks, the nonempty captured
group free of terminators, and a suffix that is empty or starts with a
terminator. -/
theorem deckFind_decomp {s : Str} {m : DMatch} (h : deckFind s = some m) :
    m.cap ≠ [] ∧ (∀ c ∈ m.cap, isTerm c = false) ∧
    ∃ ws : Str,
      (∀ c ∈ ws, isWS c = true) ∧
      s = s.take m.pre ++ deckLit ++ ws ++ m.cap ++ s.drop m.stop ∧
      (m.pre = 0 ∨ ∃ ch : Char, isTerm ch = true ∧
        s.take m.pre = s.take (m.pre - 1) ++ [ch]) ∧
      (s.drop m.stop = [] ∨ ∃ ch t, isTerm ch = true ∧ s.drop m.stop = ch :: t) := by
  obtain ⟨i, _, hma⟩ := findSome_mem h
  obtain ⟨hpre, hls, hsw, hq1, hq2, hcap, hstop⟩ := matchAt_spec hma
  subst hpre
  obtain ⟨hne, hterm, hdecomp, hsuf⟩ := capAt_decomp hcap
  refine ⟨hne, hterm, (s.drop (m.pre + 5)).take (m.capStart - (m.pre + 5)), ?_, ?_, ?_, ?_⟩
  · intro c hc
    exact take_of_le_takeWhile (s.drop (m.pre + 5)) (m.capStart - (m.pre + 5))
      (by omega) c hc
  · have h1 : s = s.take m.pre ++ s.drop m.pre := (List.take_append_drop _ _).symm
    have h2 : s.drop m.pre = deckLit ++ s.drop (m.pre + 5) := by
      have hdl : (s.drop m.pre).drop deckLit.length = s.drop (m.pre + 5) := by
        have h5 : deckLit.length = 5 := rfl
        rw [List.drop_drop, h5]
      rw [← hdl]
      exact sw_eq_append deckLit (s.drop m.pre) hsw
    have h3 : s.drop (m.pre + 5) =
        (s.drop (m.pre + 5)).take (m.capStart - (m.pre + 5)) ++ s.drop m.capStart := by
      have hd : (s.drop (m.pre + 5)).drop (m.capStart - (m.pre + 5)) = s.drop m.capStart := by
        rw [List.drop_drop]
        congr 1
        omega
      rw [← hd, List.take_append_drop]
    have h4 : s.drop m.capStart = m.cap ++ s.drop m.stop := by
      rw [hstop]
      exact hdecomp
    conv_lhs => rw [h1, h2, h3, h4]
    simp [List.append_assoc]
  · cases hi : m.pre with
    | zero => exact Or.inl rfl
    | succ j =>
      rw [hi] at hls
      simp only [lineStart] at hls
      cases hd : s.drop j with
      | nil => rw [hd] at hls; cases hls
      | cons c t =>
        rw [hd] at hls
        refine Or.inr ⟨c, hls, ?_⟩
        have hh : (s.drop j).head? = some c := by rw [hd]; rfl
        have := take_succ_of_head s j c hh
        simpa using this
  · rw [hstop]
    exact hsuf

/-- Characterisation of the submission loop: the emitted calls are the
parsed cards of the segments before the first bad one, skipping empty
segments, and the loop aborts exactly when some segment is bad; neither
depends on the backend responses. -/
theorem cardLoop_spec : ∀ (env : AnkiEnv) (deck : Str) (segs : List Str) (i : Nat),
    (cardLoop env deck segs i).1 =
      (segs.takeWhile fun s => !badSeg s).filterMap
        (fun s => if 0 < s.length then
          (parseSegment s).map (fun c => ACall.add (mkNote deck c)) else none) ∧
    (cardLoop env deck segs i).2.2 = segs.any badSeg := by
  intro env deck segs
  induction segs with
  | nil => intro i; simp [cardLoop]
  | cons seg rest ih =>
    intro i
    by_cases hlen : 0 < seg.length
    · cases hp : parseSegment seg with
      | some c =>
        have hbad : badSeg seg = false := by simp [badSeg, hp]
        have := ih (i+1)
        constructor
        · simp only [cardLoop, if_pos hlen, hp, List.takeWhile_cons, hbad, Bool.not_false,
            if_true, List.filterMap_cons, if_pos hlen, Option.map_some']
          exact congrArg _ this.1
        · simp only [cardLoop, if_pos hlen, hp, List.any_cons, hbad, Bool.false_or]
          exact this.2
      | none =>
        have hbad : badSeg seg = true := by simp [badSeg, hp, hlen]
        constructor
        · simp [cardLoop, if_pos hlen, hp, List.takeWhile_cons, hbad]
        · simp [cardLoop, if_pos hlen, hp, List.any_cons, hbad]
    · have hseg : seg = [] := by
        cases seg with
        | nil => rfl
        | cons c t => simp at hlen
      subst hseg
      have hbad : badSeg ([] : Str) = false := by simp [badSeg]
      have := ih i
      constructor
      · simp only [cardLoop, List.length_nil, Nat.lt_irrefl, if_false, List.takeWhile_cons,
          hbad, Bool.not_false, if_true, List.filterMap_cons, Nat.lt_irrefl, if_false]
        exact this.1
      · simp only [cardLoop, List.length_nil, Nat.lt_irrefl, if_false, List.any_cons, hbad,
          Bool.false_or]
        exact this.2

/-- The submission loop behaves identically after discarding the empty
segments it skips. -/
theorem cardLoop_skip_empty : ∀ (env : AnkiEnv) (deck : Str) (segs : List Str) (i : Nat),
    cardLoop env deck segs i =
      cardLoop env deck (segs.filter fun s => decide (0 < s.length)) i := by
  intro env deck segs
  induction segs with
  | nil => intro i; rfl
  | cons seg rest ih =>
    intro i
    by_cases hlen : 0 < seg.length
    · rw [List.filter_cons_of_pos (by simpa using hlen)]
      cases hp : parseSegment seg with
      | some c =>
        simp only [cardLoop, if_pos hlen, hp]
        rw [ih (i+1)]
      | none =>
        simp only [cardLoop, if_pos hlen, hp]
    · have hseg : seg = [] := by
        cases seg with
        | nil => rfl
        | cons c t => simp at hlen
      subst hseg
      rw [List.filter_cons_of_neg (by simp)]
      simp only [cardLoop, List.length_nil, Nat.lt_irrefl, if_false]
      exact ih i

/-- A nonempty all-whitespace segment is bad: it contains no pipes
separator, so parsing raises. -/
theorem allWS_bad (seg : Str) (hne : seg ≠ []) (hws : ∀ c ∈ seg, isWS c = true) :
    badSeg seg = true := by
  have hf : findSepIdx sepPipes seg = none := fsi_pipes_none_of_ws seg hws
  have hs : splitOnSep sepPipes seg = [seg] := splitOnSep_none hf
  have hp : parseSegment seg = none := by
    unfold parseSegment
    rw [hs]
  have : 0 < seg.length := List.length_pos.2 hne
  simp [badSeg, hp, this]

/-- Unfolding of a successful run into its phases. -/
theorem run_eq {env : AnkiEnv} {st : FlashcardGeneratorSettings} {text resp : Str}
    {out : RunOut} (h : generateFlashcardsFromCurrentFile env st text resp = some out) :
    out.request = mkChatRequest st (deckResolve st text).2 ∧
    out.calls = (deckPhase env (deckResolve st text).1).1 ++
      (cardLoop env (deckResolve st text).1 (segsOf resp) 0).1 ∧
    out.logs = (deckPhase env (deckResolve st text).1).2.1 ++
      (cardLoop env (deckResolve st text).1 (segsOf resp) 0).2.1 ∧
    out.aborted = (cardLoop env (deckResolve st text).1 (segsOf resp) 0).2.2 ∧
    text ≠ [] := by
  unfold generateFlashcardsFromCurrentFile at h
  by_cases he : text.isEmpty
  · rw [if_pos he] at h
    cases h
  · rw [if_neg he] at h
    have hout := (Option.some.inj h).symm
    subst hout
    refine ⟨rfl, rfl, rfl, rfl, ?_⟩
    simpa [List.isEmpty_iff] using he

/-- The deck phase trace, by truthiness of the first lookup. -/
theorem deckPhase_calls (env : AnkiEnv) (name : Str) :
    (deckPhase env name).1 =
      if jsTruthy (getDeckId (env.namesResp 0) name) then [ACall.names]
      else [ACall.names, ACall.create name, ACall.names] := by
  unfold deckPhase createDeck
  by_cases hj : jsTruthy (getDeckId (env.namesResp 0) name)
  · rw [if_pos hj, if_pos hj]
  · rw [if_neg hj, if_neg hj]

/-- The deck phase emits no note additions. -/
theorem deckPhase_no_adds (env : AnkiEnv) (name : Str) :
    addsOf (deckPhase env name).1 = [] := by
  rw [deckPhase_calls]
  by_cases hj : jsTruthy (getDeckId (env.namesResp 0) name)
  · rw [if_pos hj]; rfl
  · rw [if_neg hj]; rfl

/-- addsOf distributes over appended traces. -/
theorem addsOf_append (xs ys : List ACall) :
    addsOf (xs ++ ys) = addsOf xs ++ addsOf ys := by
  unfold addsOf
  rw [List.filterMap_append]

/-- Every call the submission loop emits is a note addition whose payload
is built from the given deck name. -/
theorem cardLoop_calls_add (env : AnkiEnv) (deck : Str) (segs : List Str) (i : Nat) :
    ∀ call ∈ (cardLoop env deck segs i).1, ∃ c : Card, call = ACall.add (mkNote deck c) := by
  intro call hc
  rw [(cardLoop_spec env deck segs i).1] at hc
  obtain ⟨seg, _, hfs⟩ := List.mem_filterMap.1 hc
  by_cases hlen : 0 < seg.length
  · rw [if_pos hlen] at hfs
    obtain ⟨c, _, hcall⟩ := Option.map_eq_some'.1 hfs
    exact ⟨c, hcall.symm⟩
  · rw [if_neg hlen] at hfs
    cases hfs

/-- The note payloads of the submission loop, independent of the backend. -/
theorem cardLoop_adds (env : AnkiEnv) (deck : Str) (segs : List Str) (i : Nat) :
    addsOf (cardLoop env deck segs i).1 =
      (segs.takeWhile fun s => !badSeg s).filterMap
        (fun s => if 0 < s.length then (parseSegment s).map (mkNote deck) else none) := by
  rw [(cardLoop_spec env deck segs i).1]
  generalize (segs.takeWhile fun s => !badSeg s) = l
  induction l with
  | nil => rfl
  | cons seg t ih =>
    simp only [List.filterMap_cons]
    by_cases hlen : 0 < seg.length
    · rw [if_pos hlen, if_pos hlen]
      cases hp : parseSegment seg with
      | none => simpa using ih
      | some c =>
        simp only [Option.map_some']
        show addsOf (ACall.add (mkNote deck c) :: _) = _
        unfold addsOf
        rw [List.filterMap_cons]
        simpa [addsOf] using ih
    · rw [if_neg hlen, if_neg hlen]
      exact ih

/-- A payload listed by addsOf comes from a note-addition call. -/
theorem mem_addsOf {p : NoteParams} {cs : List ACall} (h : p ∈ addsOf cs) :
    ACall.add p ∈ cs := by
  unfold addsOf at h
  obtain ⟨call, hmem, hcall⟩ := List.mem_filterMap.1 h
  cases call with
  | names => cases hcall
  | create _ => cases hcall
  | add q =>
    have : q = p := by simpa using hcall
    subst this
    exact hmem

/-- takeWhile keeps only members of the original list. -/
theorem tw_subset {f : Str → Bool} : ∀ {l : List Str} {x : Str},
    x ∈ l.takeWhile f → x ∈ l := by
  intro l
  induction l with
  | nil => intro x h; simp [List.takeWhile] at h
  | cons c t ih =>
    intro x h
    rw [List.takeWhile_cons] at h
    by_cases hc : f c = true
    · rw [if_pos hc] at h
      rcases List.mem_cons.1 h with rfl | h2
      · simp
      · simp [ih h2]
    · rw [if_neg hc] at h
      simp at h

/-- C1 (amended).  For every document on which the multiline regex for the
deck directive has no match, the pipeline uses the configured default deck
name and forwards the text unchanged modulo trimming.  For every document
on which it has a match, the captured group is used as the deck name and
the matched substring is deleted before trimming; the match starts at a
line start with the literal Deck:, continues with optional whitespace that
may span line breaks, and captures the nonempty remainder of a line.  The
original claim quantified over single lines matching the pattern; the
whitespace class of the regex also matches line breaks, so the code can
extract a deck name from a document none of whose lines matches. -/
theorem C1_deck_directive (st : FlashcardGeneratorSettings) (s : Str) :
    (deckFind s = none → deckResolve st s = (st.deckName, trimStr s)) ∧
    (∀ m : DMatch, deckFind s = some m →
      (deckResolve st s).1 = m.cap ∧
      (deckResolve st s).2 = trimStr (s.take m.pre ++ s.drop m.stop) ∧
      m.cap ≠ [] ∧ (∀ c ∈ m.cap, isTerm c = false) ∧
      ∃ ws : Str,
        (∀ c ∈ ws, isWS c = true) ∧
        s = s.take m.pre ++ deckLit ++ ws ++ m.cap ++ s.drop m.stop ∧
        (m.pre = 0 ∨ ∃ ch : Char, isTerm ch = true ∧
          s.take m.pre = s.take (m.pre - 1) ++ [ch]) ∧
        (s.drop m.stop = [] ∨ ∃ ch t, isTerm ch = true ∧ s.drop m.stop = ch :: t)) := by
  constructor
  · intro h
    unfold deckResolve
    rw [h]
  · intro m h
    obtain ⟨hne, hterm, ws, hws, hdec, hpre, hsuf⟩ := deckFind_decomp h
    unfold deckResolve
    rw [h]
    exact ⟨rfl, rfl, hne, hterm, ws, hws, hdec, hpre, hsuf⟩

/-- Witness for C1: a document with no directive keeps the default deck
and, at a concrete match of the regex, the captured group is the deck. -/
theorem C1_deck_directive_witness :
    deckResolve DEFAULT_SETTINGS "NoDeckHere".data =
      (DEFAULT_SETTINGS.deckName, trimStr "NoDeckHere".data) ∧
    (deckResolve DEFAULT_SETTINGS "Deck: X\nBody".data).1 = "X".data :=
  ⟨(C1_deck_directive DEFAULT_SETTINGS "NoDeckHere".data).1 (by decide),
   ((C1_deck_directive DEFAULT_SETTINGS "Deck: X\nBody".data).2
     ⟨0, 6, "X".data, 7⟩ (by decide)).1⟩

/-- C1 counterexample: the document has no line matching the directive
pattern, yet the pipeline neither uses the default deck name nor forwards
the trimmed text, because the regex whitespace crosses the line break. -/
theorem C1_counterexample :
    (∀ l ∈ linesOf "Deck:\nFoo".data, lineMatchesDeck l = false) ∧
    (deckResolve DEFAULT_SETTINGS "Deck:\nFoo".data).1 ≠ DEFAULT_SETTINGS.deckName ∧
    (deckResolve DEFAULT_SETTINGS "Deck:\nFoo".data).2 ≠ trimStr "Deck:\nFoo".data := by
  decide

/-- C2 (amended).  A segment with no pipes separator makes the destructured
back half undefined, so processing it raises; the error is caught by the
run-level handler: the run aborts, no card with an undefined field is ever
submitted, and the segments after the first malformed one are not
processed.  The original claim that the error is surfaced per-segment and
the run continues does not hold. -/
theorem C2_malformed_segment (env : AnkiEnv) (st : FlashcardGeneratorSettings)
    (text resp : Str) (out : RunOut)
    (h : generateFlashcardsFromCurrentFile env st text resp = some out) :
    out.aborted = (segsOf resp).any badSeg ∧
    addsOf out.calls = ((segsOf resp).takeWhile fun s => !badSeg s).filterMap
      (fun s => if 0 < s.length then
        (parseSegment s).map (mkNote (deckResolve st text).1) else none) ∧
    (∀ p ∈ addsOf out.calls, ∃ seg ∈ segsOf resp, 0 < seg.length ∧
      parseSegment seg = some ⟨p.front, p.back⟩) := by
  obtain ⟨_, hcalls, _, hab, _⟩ := run_eq h
  have hadds : addsOf out.calls =
      ((segsOf resp).takeWhile fun s => !badSeg s).filterMap
        (fun s => if 0 < s.length then
          (parseSegment s).map (mkNote (deckResolve st text).1) else none) := by
    rw [hcalls, addsOf_append, deckPhase_no_adds, List.nil_append, cardLoop_adds]
  refine ⟨?_, hadds, ?_⟩
  · rw [hab, (cardLoop_spec _ _ _ _).2]
  · intro p hp
    rw [hadds] at hp
    obtain ⟨seg, hmem, hfs⟩ := List.mem_filterMap.1 hp
    by_cases hlen : 0 < seg.length
    · rw [if_pos hlen] at hfs
      obtain ⟨c, hc, hmk⟩ := Option.map_eq_some'.1 hfs
      refine ⟨seg, tw_subset hmem, hlen, ?_⟩
      rw [hc]
      subst hmk
      rfl
    · rw [if_neg hlen] at hfs
      cases hfs

/-- Witness for C2: on a well-formed response the run does not abort. -/
theorem C2_malformed_segment_witness :
    ((generateFlashcardsFromCurrentFile okEnv DEFAULT_SETTINGS "T".data "A||B".data).map
      (fun o => o.aborted)) = some false := by
  cases hrun : generateFlashcardsFromCurrentFile okEnv DEFAULT_SETTINGS "T".data "A||B".data with
  | none => exact absurd hrun (by decide)
  | some out =>
    have hth := (C2_malformed_segment okEnv DEFAULT_SETTINGS "T".data "A||B".data out hrun).1
    rw [Option.map_some', hth]
    decide

/-- C2 counterexample: the response has a malformed first segment followed
by a well-formed one; the run aborts and the well-formed segment is never
submitted, so the error is not surfaced per-segment. -/
theorem C2_counterexample :
    segsOf "X=======A||B".data = ["X".data, "A||B".data] ∧
    hasOcc sepPipes "X".data = false ∧
    parseSegment "A||B".data = some ⟨"A".data, "B".data⟩ ∧
    ((generateFlashcardsFromCurrentFile okEnv DEFAULT_SETTINGS "T".data
        "X=======A||B".data).map (fun out => (addsOf out.calls, out.aborted))) =
      some ([], true) := by
  decide

/-- C3.  The automation client posts the JSON body of action, params and
version 6 to the fixed local endpoint; a response with a non-null error
field raises exactly that message, and otherwise the result field is
returned, also when the error field is null or absent. -/
theorem C3_invoke_contract : ∀ (π ρ : Type) (action : String) (params : Option π)
    (resp : AnkiRawResponse ρ),
    (invokeAnkiConnect action params resp).1 =
      ⟨"http://localhost:8765", "POST", ⟨action, params, 6⟩⟩ ∧
    (∀ msg, resp.errorField = some (some msg) →
      (invokeAnkiConnect action params resp).2 = Except.error msg) ∧
    (resp.errorField = none ∨ resp.errorField = some none →
      (invokeAnkiConnect action params resp).2 = Except.ok resp.result) := by
  intro π ρ action params resp
  refine ⟨rfl, ?_, ?_⟩
  · intro msg h
    unfold invokeAnkiConnect
    rw [h]
  · rintro (h | h) <;> (unfold invokeAnkiConnect; rw [h])

/-- Witness for C3: the boom response raises boom rather than returning the
null result. -/
theorem C3_invoke_contract_witness :
    (invokeAnkiConnect "deckNamesAndIds" (none : Option Unit)
      (⟨some (some "boom"), none⟩ : AnkiRawResponse (Option Unit))).2 =
      Except.error "boom" :=
  (C3_invoke_contract Unit (Option Unit) "deckNamesAndIds" none
    ⟨some (some "boom"), none⟩).2.1 "boom" rfl

/-- C4.  The calls attempted and the abort status of the submission loop do
not depend on the note-addition responses: a failing addNote is caught and
the loop continues.  Moreover a rejected card is logged with the raised
message and the loop proceeds to the remaining cards unchanged. -/
theorem C4_addnote_failure_isolated (env : AnkiEnv) (f : Nat → Except String Int)
    (deck : Str) (segs : List Str) (i : Nat) :
    (cardLoop { env with addResp := f } deck segs i).1 = (cardLoop env deck segs i).1 ∧
    (cardLoop { env with addResp := f } deck segs i).2.2 =
      (cardLoop env deck segs i).2.2 ∧
    (∀ (e : String) (c : Card) (seg : Str) (rest : List Str),
      0 < seg.length → parseSegment seg = some c → env.addResp i = Except.error e →
      cardLoop env deck (seg :: rest) i =
        (ACall.add (mkNote deck c) :: (cardLoop env deck rest (i+1)).1,
         e :: (cardLoop env deck rest (i+1)).2.1,
         (cardLoop env deck rest (i+1)).2.2)) := by
  refine ⟨?_, ?_, ?_⟩
  · rw [(cardLoop_spec _ _ _ _).1, (cardLoop_spec _ _ _ _).1]
  · rw [(cardLoop_spec _ _ _ _).2, (cardLoop_spec _ _ _ _).2]
  · intro e c seg rest hlen hp he
    simp only [cardLoop, if_pos hlen, hp, addCardToDeck, he, Option.toList_some,
      List.singleton_append]

/-- Witness for C4: with every addNote rejected, the first failing card is
logged and the second card is still attempted. -/
theorem C4_addnote_failure_isolated_witness :
    cardLoop badAddEnv "D".data ["A||B".data, "C||D".data] 0 =
      (ACall.add (mkNote "D".data ⟨"A".data, "B".data⟩) ::
        (cardLoop badAddEnv "D".data ["C||D".data] 1).1,
       "dup" :: (cardLoop badAddEnv "D".data ["C||D".data] 1).2.1,
       (cardLoop badAddEnv "D".data ["C||D".data] 1).2.2) :=
  (C4_addnote_failure_isolated badAddEnv (fun _ => Except.ok 0) "D".data [] 0).2.2
    "dup" ⟨"A".data, "B".data⟩ "A||B".data ["C||D".data] (by decide) (by decide) rfl

/-- C5 (amended).  The pipeline trims the whole response once and splits on
the separator literal; the resulting segments are not individually
trimmed: the loop skips exactly the segments of zero length, and a
nonempty all-whitespace segment is processed like any other and, lacking a
pipes separator, is bad.  The original claim that each segment is trimmed
and every whitespace-only segment is skipped does not hold. -/
theorem C5_segment_handling (env : AnkiEnv) (deck : Str) (segs : List Str) (i : Nat) :
    (∀ resp : Str, segsOf resp = splitOnSep sepEquals (trimStr resp)) ∧
    cardLoop env deck segs i =
      cardLoop env deck (segs.filter fun s => decide (0 < s.length)) i ∧
    (∀ seg : Str, seg ≠ [] → (∀ c ∈ seg, isWS c = true) → badSeg seg = true) :=
  ⟨fun _ => rfl, cardLoop_skip_empty env deck segs i,
   fun seg h1 h2 => allWS_bad seg h1 h2⟩

/-- Witness for C5: a two-space segment is nonempty, all whitespace, and
bad. -/
theorem C5_segment_handling_witness : badSeg "  ".data = true :=
  (C5_segment_handling okEnv "D".data [] 0).2.2 "  ".data (by decide) (by decide)

/-- C5 counterexample: an all-whitespace middle segment is not skipped:
processing stops there, so the well-formed segment after it yields no
submission and the run aborts. -/
theorem C5_counterexample :
    segsOf "A||B=======  \n  =======C||D".data =
      ["A||B".data, "  \n  ".data, "C||D".data] ∧
    (∀ c ∈ ("  \n  ".data : Str), isWS c = true) ∧
    trimStr "  \n  ".data = [] ∧
    parseSegment "C||D".data = some ⟨"C".data, "D".data⟩ ∧
    ((generateFlashcardsFromCurrentFile okEnv DEFAULT_SETTINGS "T".data
        "A||B=======  \n  =======C||D".data).map
      (fun out => (addsOf out.calls, out.aborted))) =
      some ([mkNote "Generated Flashcards".data ⟨"A".data, "B".data⟩], true) := by
  decide

/-- C6 (amended).  The trace of a run is the first lookup, then, exactly
when the looked-up id is JavaScript-falsy (the deck is absent, the lookup
failed, or the matched id is zero), one creation of the target deck and a
second lookup, followed only by note additions.  The original claim that
an exact name match prevents creation does not hold, because a matched
deck with numeric id zero is falsy and still triggers creation. -/
theorem C6_deck_creation (env : AnkiEnv) (st : FlashcardGeneratorSettings)
    (text resp : Str) (out : RunOut)
    (h : generateFlashcardsFromCurrentFile env st text resp = some out) :
    out.calls =
      (if jsTruthy (getDeckId (env.namesResp 0) (deckResolve st text).1)
        then [ACall.names]
        else [ACall.names, ACall.create (deckResolve st text).1, ACall.names]) ++
      (cardLoop env (deckResolve st text).1 (segsOf resp) 0).1 ∧
    (∀ call ∈ (cardLoop env (deckResolve st text).1 (segsOf resp) 0).1,
      isAdd call = true) := by
  obtain ⟨_, hcalls, _, _, _⟩ := run_eq h
  constructor
  · rw [hcalls, deckPhase_calls]
  · intro call hc
    obtain ⟨c, rfl⟩ := cardLoop_calls_add env (deckResolve st text).1 (segsOf resp) 0 call hc
    rfl

/-- Witness for C6: with no decks listed the trace is lookup, creation,
second lookup, and the note additions of the response. -/
theorem C6_deck_creation_witness :
    ((generateFlashcardsFromCurrentFile okEnv DEFAULT_SETTINGS "T".data "A||B".data).map
      (fun o => o.calls)) =
      some ([ACall.names, ACall.create "Generated Flashcards".data, ACall.names] ++
        (cardLoop okEnv "Generated Flashcards".data (segsOf "A||B".data) 0).1) := by
  cases hrun : generateFlashcardsFromCurrentFile okEnv DEFAULT_SETTINGS "T".data "A||B".data with
  | none => exact absurd hrun (by decide)
  | some out =>
    have hth := (C6_deck_creation okEnv DEFAULT_SETTINGS "T".data "A||B".data out hrun).1
    rw [Option.map_some', hth]
    decide

/-- C6 counterexample: the lookup finds a deck whose name equals the target
exactly, but its id is zero, so the deck is created anyway. -/
theorem C6_counterexample :
    getDeckId (Except.ok [("X".data, (0 : Int))]) "X".data = some 0 ∧
    (∃ d ∈ [("X".data, (0 : Int))], d.1 = "X".data) ∧
    (deckPhase zeroIdEnv "X".data).1 =
      [ACall.names, ACall.create "X".data, ACall.names] := by
  decide

/-- C7 (amended).  Every run that reaches the model call sends exactly
three messages in order: the fixed system persona, a user message holding
the configured prompt verbatim, and a user message of the fixed literal
followed by the cleaned text, with temperature one fifth, presence penalty
minus one fifth, and the configured model.  The hardcoded default template
applies only when the prompt field is absent from the stored settings at
merge time; an empty stored prompt is sent as the empty string.  The
original claim of a fallback for an empty configured prompt does not
hold. -/
theorem C7_request_shape (env : AnkiEnv) (st : FlashcardGeneratorSettings)
    (text resp : Str) (out : RunOut)
    (h : generateFlashcardsFromCurrentFile env st text resp = some out) :
    out.request.messages =
      [⟨"system", systemPersona⟩, ⟨"user", st.prompt⟩,
       ⟨"user", userTextLead ++ (deckResolve st text).2⟩] ∧
    out.request.model = st.modelName ∧
    out.request.temperature = 1/5 ∧
    out.request.presencePenalty = -1/5 ∧
    (∀ d : StoredSettings,
      (loadSettings (some d)).prompt = d.prompt.getD DEFAULT_SETTINGS.prompt) := by
  obtain ⟨hreq, _, _, _, _⟩ := run_eq h
  rw [hreq]
  exact ⟨rfl, rfl, rfl, rfl, fun d => rfl⟩

/-- Witness for C7: a concrete run sends the configured model name. -/
theorem C7_request_shape_witness :
    ((generateFlashcardsFromCurrentFile okEnv DEFAULT_SETTINGS "T".data "A||B".data).map
      (fun o => o.request.model)) = some "gpt-4".data := by
  cases hrun : generateFlashcardsFromCurrentFile okEnv DEFAULT_SETTINGS "T".data "A||B".data with
  | none => exact absurd hrun (by decide)
  | some out =>
    have hth := (C7_request_shape okEnv DEFAULT_SETTINGS "T".data "A||B".data out hrun).2.1
    rw [Option.map_some', hth]
    rfl

/-- C7 counterexample: stored settings with an empty prompt field produce
an empty second message, not the default template. -/
theorem C7_counterexample :
    (loadSettings (some ⟨none, some [], some "k".data, none⟩)).prompt = [] ∧
    (mkChatRequest (loadSettings (some ⟨none, some [], some "k".data, none⟩)) []).messages =
      [⟨"system", systemPersona⟩, ⟨"user", []⟩, ⟨"user", userTextLead⟩] ∧
    DEFAULT_SETTINGS.prompt ≠ [] := by
  refine ⟨rfl, ?_, by decide⟩
  show [⟨"system", systemPersona⟩, ⟨"user", []⟩, ⟨"user", userTextLead ++ []⟩] =
    ([⟨"system", systemPersona⟩, ⟨"user", []⟩, ⟨"user", userTextLead⟩] : List ChatMessage)
  simp

/-- C8.  Note additions carry the deck name string only: for the same
settings, document and response, any two backends produce the same
addNote payloads, also when lookup and creation fail, and every payload
uses the resolved deck name with the fixed note type, duplicate flag and
tag. -/
theorem C8_deck_by_name (env₁ env₂ : AnkiEnv) (st : FlashcardGeneratorSettings)
    (text resp : Str) (out₁ out₂ : RunOut)
    (h₁ : generateFlashcardsFromCurrentFile env₁ st text resp = some out₁)
    (h₂ : generateFlashcardsFromCurrentFile env₂ st text resp = some out₂) :
    addsOf out₁.calls = addsOf out₂.calls ∧
    (∀ p ∈ addsOf out₁.calls, p.deckName = (deckResolve st text).1 ∧
      p.modelName = "Basic".data ∧ p.allowDuplicate = false ∧
      p.tags = ["generated".data]) := by
  obtain ⟨_, hcalls₁, _, _, _⟩ := run_eq h₁
  obtain ⟨_, hcalls₂, _, _, _⟩ := run_eq h₂
  have hadds₁ : addsOf out₁.calls =
      addsOf (cardLoop env₁ (deckResolve st text).1 (segsOf resp) 0).1 := by
    rw [hcalls₁, addsOf_append, deckPhase_no_adds, List.nil_append]
  have hadds₂ : addsOf out₂.calls =
      addsOf (cardLoop env₂ (deckResolve st text).1 (segsOf resp) 0).1 := by
    rw [hcalls₂, addsOf_append, deckPhase_no_adds, List.nil_append]
  constructor
  · rw [hadds₁, hadds₂, cardLoop_adds, cardLoop_adds]
  · intro p hp
    rw [hadds₁] at hp
    have hmem := mem_addsOf hp
    obtain ⟨c, hc⟩ := cardLoop_calls_add env₁ (deckResolve st text).1 (segsOf resp) 0
      (ACall.add p) hmem
    have : p = mkNote (deckResolve st text).1 c := by
      cases hc
      rfl
    subst this
    exact ⟨rfl, rfl, rfl, rfl⟩

/-- Witness for C8: a fully failing backend attempts the same note
additions as a fully succeeding one. -/
theorem C8_deck_by_name_witness :
    ((generateFlashcardsFromCurrentFile okEnv DEFAULT_SETTINGS "T".data "A||B".data).map
      (fun o => addsOf o.calls)) =
    ((generateFlashcardsFromCurrentFile failEnv DEFAULT_SETTINGS "T".data "A||B".data).map
      (fun o => addsOf o.calls)) := by
  cases hrun₁ : generateFlashcardsFromCurrentFile okEnv DEFAULT_SETTINGS "T".data "A||B".data with
  | none => exact absurd hrun₁ (by decide)
  | some out₁ =>
    cases hrun₂ : generateFlashcardsFromCurrentFile failEnv DEFAULT_SETTINGS "T".data "A||B".data with
    | none => exact absurd hrun₂ (by decide)
    | some out₂ =>
      rw [Option.map_some', Option.map_some']
      exact congrArg some
        ((C8_deck_by_name okEnv failEnv DEFAULT_SETTINGS "T".data "A||B".data
          out₁ out₂ hrun₁ hrun₂).1)

/-- C9.  In a segment with two or more pipes separators, only the first two
pieces become the front and back, with first-occurrence literal stripping
and trimming; everything after the second separator is silently discarded,
with no error and no effect on the submitted card. -/
theorem C9_extra_separators (a b rest : Str)
    (ha1 : hasOcc sepPipes a = false) (ha2 : endsPipe a = false)
    (hb1 : hasOcc sepPipes b = false) (hb2 : endsPipe b = false) :
    splitOnSep sepPipes (a ++ sepPipes ++ b ++ sepPipes ++ rest) =
      a :: b :: splitOnSep sepPipes rest ∧
    parseSegment (a ++ sepPipes ++ b ++ sepPipes ++ rest) =
      some ⟨trimStr (replaceFirst frontLit a), trimStr (replaceFirst backLit b)⟩ := by
  have hfa : findSepIdx sepPipes a = none := by
    cases hh : findSepIdx sepPipes a with
    | none => rfl
    | some i => rw [hasOcc, hh] at ha1; simp at ha1
  have hfb : findSepIdx sepPipes b = none := by
    cases hh : findSepIdx sepPipes b with
    | none => rfl
    | some i => rw [hasOcc, hh] at hb1; simp at hb1
  have hassoc : a ++ sepPipes ++ b ++ sepPipes ++ rest =
      a ++ sepPipes ++ (b ++ sepPipes ++ rest) := by
    simp [List.append_assoc]
  have hsplit : splitOnSep sepPipes (a ++ sepPipes ++ b ++ sepPipes ++ rest) =
      a :: b :: splitOnSep sepPipes rest := by
    rw [hassoc, split_pipes_cons a _ hfa ha2, split_pipes_cons b rest hfb hb2]
  refine ⟨hsplit, ?_⟩
  unfold parseSegment
  rw [hsplit]

/-- Witness for C9: trailing garbage after a second separator is dropped
and the card is built from the first two pieces. -/
theorem C9_extra_separators_witness :
    parseSegment ("Front: Q".data ++ sepPipes ++ "Back: A".data ++ sepPipes ++ "junk".data) =
      some ⟨"Q".data, "A".data⟩ := by
  rw [(C9_extra_separators "Front: Q".data "Back: A".data "junk".data
    (by decide) (by decide) (by decide) (by decide)).2]
  decide

/-- C10.  getDeckId is total under remote failure: a failed listing call is
caught and yields null, the same value as a missing deck, and the pipeline
then attempts deck creation and carries on rather than aborting. -/
theorem C10_lookup_failure_is_missing (e : String) (name : Str)
    (decks : List (Str × Int)) (env : AnkiEnv) (st : FlashcardGeneratorSettings)
    (text resp : Str) (out : RunOut) :
    getDeckId (Except.error e) name = none ∧
    ((∀ d ∈ decks, d.1 ≠ name) → getDeckId (Except.ok decks) name = none) ∧
    (generateFlashcardsFromCurrentFile env st text resp = some out →
      env.namesResp 0 = Except.error e →
      ∃ adds, out.calls = [ACall.names, ACall.create (deckResolve st text).1,
        ACall.names] ++ adds) := by
  refine ⟨rfl, ?_, ?_⟩
  · intro h
    have hfind : decks.find? (fun d => decide (d.1 = name)) = none :=
      List.find?_eq_none.2 (by intro x hx; simpa using h x hx)
    show (match decks.find? (fun d => decide (d.1 = name)) with
      | some d => some d.2
      | none => none) = none
    rw [hfind]
  · intro hrun hns
    obtain ⟨_, hcalls, _, _, _⟩ := run_eq hrun
    refine ⟨(cardLoop env (deckResolve st text).1 (segsOf resp) 0).1, ?_⟩
    rw [hcalls, deckPhase_calls, hns]
    rfl

/-- Witness for C10: a failed lookup equals a missing deck, and with a
failing backend the run still opens with lookup, creation, lookup. -/
theorem C10_lookup_failure_is_missing_witness :
    getDeckId (Except.error "down") "X".data = none ∧
    getDeckId (Except.ok [("Y".data, (1 : Int))]) "X".data = none ∧
    ((generateFlashcardsFromCurrentFile failEnv DEFAULT_SETTINGS "T".data "".data).map
      (fun o => o.calls.take 3)) =
      some [ACall.names, ACall.create "Generated Flashcards".data, ACall.names] := by
  refine ⟨(C10_lookup_failure_is_missing "down" "X".data [] okEnv DEFAULT_SETTINGS
      [] [] ⟨mkChatRequest DEFAULT_SETTINGS [], [], [], false⟩).1,
    (C10_lookup_failure_is_missing "down" "X".data [("Y".data, 1)] okEnv DEFAULT_SETTINGS
      [] [] ⟨mkChatRequest DEFAULT_SETTINGS [], [], [], false⟩).2.1 (by decide), ?_⟩
  cases hrun : generateFlashcardsFromCurrentFile failEnv DEFAULT_SETTINGS "T".data "".data with
  | none => exact absurd hrun (by decide)
  | some out =>
    obtain ⟨adds, hcalls⟩ := (C10_lookup_failure_is_missing "down" "Z".data []
      failEnv DEFAULT_SETTINGS "T".data "".data out).2.2 hrun rfl
    have hdn : (deckResolve DEFAULT_SETTINGS "T".data).1 = "Generated Flashcards".data := by
      decide
    rw [hdn] at hcalls
    rw [Option.map_some', hcalls]
    simp
